import Mathlib

/-!
Verification of the resource-matching engine (`DefaultResourceManager`) of the
mesos-framework-sdk repository: a shallow embedding of the offer pool, the
constraint registry and the greedy allocator, together with theorems settling
the specification's claims about them.

Modelling conventions:
* Go `float64` scalar quantities are modelled as exact rationals `ℚ`; the code
  only subtracts and compares scalars, so no claim hinges on rounding.
* Pointer mutation of pool entries is modelled by threading the pool list
  through the scan (`List.set` at the scanned index).
* The two concurrent maps of the registry are modelled as functions
  `String → Option _` with pointwise update/delete; their get/set/delete are
  atomic in the source, so the sequential model is faithful per call.
* `strings.ToLower` / `strings.EqualFold` are modelled by mapping
  `Char.toLower` over the characters (all strings the code compares against
  are ASCII).
* Go functions that can `panic` (the out-of-range index `f.Value[0]` in
  `AddFilter`) return `Option _`, with `none` standing for the panic.
* The scan in `Assign` walks an index `i` upward over a pool whose length is
  invariant during the scan; the structural `fuel` argument (always called
  with `fuel = pool.length`, and `i = 0`) makes the recursion structural
  without changing the result: when the fuel runs out, `i` has reached the
  end of the pool and the scan reports exhaustion exactly as the `else`
  branch does.
-/

namespace Mesos

/-- Character-wise lowercasing; model of Go `strings.ToLower` (and, applied to
both sides, of `strings.EqualFold`) on the ASCII strings the code uses. -/
def strToLower (s : String) : String := String.mk (s.data.map Char.toLower)

/-- Opaque disk descriptor (`mesos_v1.Resource_DiskInfo`); the code never looks
inside it, it is only copied around, so it is modelled by an opaque tag. -/
structure Resource_DiskInfo where
  tag : Nat
deriving DecidableEq

/-- The attribute/value kinds (`mesos_v1.Value_Type`). -/
inductive Value_Type where
  | SCALAR
  | TEXT
  | RANGES
  | SET
deriving DecidableEq

/-- A resource line item (`mesos_v1.Resource`): a name, an optional scalar
value (`GetScalar().GetValue()` yields `0` when absent) and an optional disk
descriptor. -/
structure Resource where
  name : String
  scalar : Option ℚ
  disk : Option Resource_DiskInfo
deriving DecidableEq

/-- A typed offer attribute (`mesos_v1.Attribute`); `GetText().GetValue()`
yields `""` when the text part is absent. -/
structure Attribute where
  type : Value_Type
  text : Option String
  scalar : Option ℚ
deriving DecidableEq

/-- A raw advertised offer (`mesos_v1.Offer`): an opaque identity plus its
resource line items and typed attributes. -/
structure Offer where
  id : Nat
  resources : List Resource
  attributes : List Attribute
deriving DecidableEq

/-- A task's demand (`mesos_v1.TaskInfo`): its registry key `GetName()` and its
requested resources. -/
structure TaskInfo where
  name : String
  resources : List Resource
deriving DecidableEq

/-- A per-task constraint (`task.Filter`): a kind string and a list of terms. -/
structure Filter where
  type : String
  value : List String
deriving DecidableEq

/-- A pool entry (`MesosOfferResources`): the raw offer plus its mutable
projected scalar capacities, disk descriptor and accepted flag. -/
structure MesosOfferResources where
  Offer : Offer
  Cpu : ℚ
  Mem : ℚ
  Disk : Option Resource_DiskInfo
  Accepted : Bool
deriving DecidableEq

/-- The resource manager state (`DefaultResourceManager`): the offer pool and
the two registry maps (filters and strategy), keyed by task name. -/
structure DefaultResourceManager where
  offers : List MesosOfferResources
  filterOn : String → Option (List Filter)
  strategy : String → Option String

/-- Pointwise map update; model of `ConcurrentMap.Set` (overwrites). -/
def mapSet {α : Type} (m : String → Option α) (k : String) (v : α) : String → Option α :=
  fun x => if x = k then some v else m x

/-- Pointwise map deletion; model of `ConcurrentMap.Delete`. -/
def mapDel {α : Type} (m : String → Option α) (k : String) : String → Option α :=
  fun x => if x = k then none else m x

/-- A fresh manager (`NewDefaultResourceManager`): empty pool, empty maps. -/
def NewDefaultResourceManager : DefaultResourceManager :=
  { offers := [], filterOn := fun _ => none, strategy := fun _ => none }

/-- The per-offer projection loop inside `AddOffers`: the last `"cpus"`
resource sets `Cpu`, the last `"mem"` resource sets `Mem`, the last `"disk"`
resource sets `Disk`, anything else is ignored. -/
def projectResources : List Resource → MesosOfferResources → MesosOfferResources
  | [], m => m
  | r :: rest, m =>
    projectResources rest
      (if r.name = "cpus" then { m with Cpu := r.scalar.getD 0 }
       else if r.name = "mem" then { m with Mem := r.scalar.getD 0 }
       else if r.name = "disk" then { m with Disk := r.disk }
       else m)

/-- Projection of one raw offer into a pool entry (`&MesosOfferResources{}`
zero value, then the resource loop, then `mesosOffer.Offer = offer`). -/
def projectOffer (offer : Offer) : MesosOfferResources :=
  projectResources offer.resources
    { Offer := offer, Cpu := 0, Mem := 0, Disk := none, Accepted := false }

/-- `clearOffers`: drop the whole pool. -/
def clearOffers (d : DefaultResourceManager) : DefaultResourceManager :=
  { d with offers := [] }

/-- `AddOffers`: unconditionally clear the pool, then append the projection of
each offer of the batch in order. -/
def AddOffers (d : DefaultResourceManager) (offers : List Offer) : DefaultResourceManager :=
  offers.foldl (fun st o => { st with offers := st.offers ++ [projectOffer o] }) (clearOffers d)

/-- `HasResources`: is the pool non-empty? -/
def HasResources (d : DefaultResourceManager) : Bool :=
  decide (d.offers.length > 0)

/-- `AddFilter`: register each filter in order. The four attribute kinds are
appended to the task's filter list; kind `strategy` stores the first term as
the task's strategy (reading `f.Value[0]` panics — `none` — when the value
list is empty); an unrecognized kind stops the loop and returns the error,
keeping the entries already applied. -/
def AddFilter : DefaultResourceManager → TaskInfo → List Filter →
    Option (DefaultResourceManager × Option String)
  | d, _, [] => some (d, none)
  | d, t, f :: rest =>
    if strToLower f.type = "ranges" ∨ strToLower f.type = "set" ∨
        strToLower f.type = "text" ∨ strToLower f.type = "scalar" then
      match d.filterOn t.name with
      | none =>
        AddFilter
          { d with filterOn := mapSet d.filterOn t.name [{ type := f.type, value := f.value }] }
          t rest
      | some list =>
        AddFilter
          { d with filterOn :=
              mapSet d.filterOn t.name (list ++ [{ type := f.type, value := f.value }]) }
          t rest
    else if strToLower f.type = "strategy" then
      match f.value with
      | [] => none
      | v :: _ => AddFilter { d with strategy := mapSet d.strategy t.name v } t rest
    else
      some (d, some ("Invalid filter passed in: " ++ f.type ++
        ". Allowed filters are SCALAR, TEXT, SET, RANGES, and STRATEGY."))

/-- `ClearFilters`: delete both registry entries of the task. -/
def ClearFilters (d : DefaultResourceManager) (t : TaskInfo) : DefaultResourceManager :=
  { d with filterOn := mapDel d.filterOn t.name, strategy := mapDel d.strategy t.name }

/-- `popOffer`: swap the entry at `i` with the last entry, then drop the last
slot (O(1) removal, order not preserved). -/
def popOffer (l : List MesosOfferResources) (i : Nat) : List MesosOfferResources :=
  match l.getLast? with
  | none => l
  | some last => (l.set i last).dropLast

/-- `filterOnAttrText`: the loop body returns on its first iteration, so only
the first term is ever compared (case-insensitively) with the attribute's
text value; an empty term list yields `false`. -/
def filterOnAttrText : List String → Attribute → Bool
  | [], _ => false
  | term :: _, a => if strToLower term = strToLower (a.text.getD "") then true else false

/-- `filterOnAttrScalar`: parse each term as a float (`strconv.ParseFloat`,
library code outside this repository, taken as a parameter) and compare it
with the attribute's scalar value; unparseable terms are skipped. Dead code:
`filter` below never calls it. -/
def filterOnAttrScalar (parseFloat : String → Option ℚ) : List String → Attribute → Bool
  | [], _ => false
  | term :: rest, a =>
    match parseFloat term with
    | none => filterOnAttrScalar parseFloat rest a
    | some v =>
      if a.scalar.getD 0 = v then true else filterOnAttrScalar parseFloat rest a

/-- The inner attribute loop of `filter`: the switch on the attribute's type
has an empty body for `SCALAR`, `SET` and `RANGES` (no fallthrough in Go);
only `TEXT` attributes are tested, via `filterOnAttrText`. -/
def filterAttrs (value : List String) : List Attribute → Bool
  | [] => false
  | a :: rest =>
    match a.type with
    | Value_Type.TEXT => if filterOnAttrText value a then true else filterAttrs value rest
    | _ => filterAttrs value rest

/-- `filter`: an offer passes if any registered filter's terms match any of
the offer's text attributes; the filter's own kind is never inspected. -/
def filter : List Filter → Offer → Bool
  | [], _ => false
  | f :: rest, offer =>
    if filterAttrs f.value offer.attributes then true else filter rest offer

/-- `allocateMemResource`: subtract iff the result stays non-negative. -/
def allocateMemResource (mem : ℚ) (offer : MesosOfferResources) : MesosOfferResources × Bool :=
  if offer.Mem - mem ≥ 0 then ({ offer with Mem := offer.Mem - mem }, true)
  else (offer, false)

/-- `allocateCpuResource`: subtract iff the result stays non-negative. -/
def allocateCpuResource (cpu : ℚ) (offer : MesosOfferResources) : MesosOfferResources × Bool :=
  if offer.Cpu - cpu ≥ 0 then ({ offer with Cpu := offer.Cpu - cpu }, true)
  else (offer, false)

/-- `allocateDiskResource`: when the task's resource carries a disk
descriptor, overwrite the pool entry's descriptor with it; no capacity is
subtracted. -/
def allocateDiskResource (resource : Resource) (offer : MesosOfferResources) :
    MesosOfferResources × Bool :=
  match resource.disk with
  | some _ => ({ offer with Disk := resource.disk }, true)
  | none => (offer, false)

/-- The per-offer resource loop of `Assign`: each `"cpus"`/`"mem"` demand is
subtracted in place, and a failing subtraction aborts the loop (returning the
entry as mutated so far); a `"disk"` demand copies the task's descriptor and
never aborts; other names are ignored. -/
def consumeResources : List Resource → MesosOfferResources → MesosOfferResources × Bool
  | [], offer => (offer, true)
  | r :: rest, offer =>
    if r.name = "cpus" then
      match allocateCpuResource (r.scalar.getD 0) offer with
      | (offer', true) => consumeResources rest offer'
      | (offer', false) => (offer', false)
    else if r.name = "mem" then
      match allocateMemResource (r.scalar.getD 0) offer with
      | (offer', true) => consumeResources rest offer'
      | (offer', false) => (offer', false)
    else if r.name = "disk" then
      consumeResources rest (allocateDiskResource r offer).1
    else
      consumeResources rest offer

/-- The labelled scan loop of `Assign` over pool indices `i`, threading the
pool because entries are mutated in place (also on skips): filter check, then
the resource loop, then the accepted flag and the retention policy
(`non-mux` default: always pop; `mux`: pop only when the residual `Mem` or
`Cpu` is `0`). `fuel` is always the pool's length so that the recursion is
structural; it never runs out before `i` does. -/
def assignScan (d : DefaultResourceManager) (t : TaskInfo) :
    Nat → List MesosOfferResources → Nat → Option Offer × List MesosOfferResources
  | 0, pool, _ => (none, pool)
  | fuel + 1, pool, i =>
    if h : i < pool.length then
      let offer := pool.get ⟨i, h⟩
      if (match d.filterOn t.name with
          | none => true
          | some fs => filter fs offer.Offer) then
        match consumeResources t.resources offer with
        | (offer', false) => assignScan d t fuel (pool.set i offer') (i + 1)
        | (offer', true) =>
          let offer'' := { offer' with Accepted := true }
          let pool' := pool.set i offer''
          let strategy := (d.strategy t.name).getD "non-mux"
          if strToLower strategy = strToLower "mux" then
            if offer''.Mem = 0 ∨ offer''.Cpu = 0 then (some offer''.Offer, popOffer pool' i)
            else (some offer''.Offer, pool')
          else (some offer''.Offer, popOffer pool' i)
      else assignScan d t fuel pool (i + 1)
    else (none, pool)

/-- `Assign`: run the scan from index 0; a match returns the raw offer and the
scan's pool, exhaustion returns the not-found error naming the task (and the
pool as mutated by the scan). -/
def Assign (d : DefaultResourceManager) (t : TaskInfo) :
    Except String Offer × DefaultResourceManager :=
  match assignScan d t d.offers.length d.offers 0 with
  | (some o, pool') => (Except.ok o, { d with offers := pool' })
  | (none, pool') =>
    (Except.error ("Cannot find a suitable offer for task " ++ t.name),
     { d with offers := pool' })

/-- `Offers`: the raw offers of the entries not yet marked accepted. -/
def Offers (d : DefaultResourceManager) : List Offer :=
  (d.offers.filter (fun o => !o.Accepted)).map (fun o => o.Offer)

/-- Recognized `AddFilter` kinds (the five cases of its switch). -/
def isValidKind (k : String) : Bool :=
  decide (strToLower k = "ranges" ∨ strToLower k = "set" ∨ strToLower k = "text" ∨
    strToLower k = "scalar" ∨ strToLower k = "strategy")

/-- Equality of `Except` results is decidable when both components are. -/
instance {e a : Type} [DecidableEq e] [DecidableEq a] : DecidableEq (Except e a) :=
  fun x y =>
    match x, y with
    | Except.ok u, Except.ok v =>
      if h : u = v then Decidable.isTrue (congrArg Except.ok h)
      else Decidable.isFalse (fun he => h (Except.ok.inj he))
    | Except.ok _, Except.error _ => Decidable.isFalse (fun he => Except.noConfusion he)
    | Except.error _, Except.ok _ => Decidable.isFalse (fun he => Except.noConfusion he)
    | Except.error u, Except.error v =>
      if h : u = v then Decidable.isTrue (congrArg Except.error h)
      else Decidable.isFalse (fun he => h (Except.error.inj he))

/-- A `"cpus"` resource line item carrying the given scalar amount. -/
def cpusRes (q : ℚ) : Resource := { name := "cpus", scalar := some q, disk := none }

/-- A `"mem"` resource line item carrying the given scalar amount. -/
def memRes (q : ℚ) : Resource := { name := "mem", scalar := some q, disk := none }

/-- A `"disk"` resource line item carrying the given descriptor. -/
def diskRes (d : Option Resource_DiskInfo) : Resource :=
  { name := "disk", scalar := none, disk := d }

/-- Offer of the single-use scenario: `cpu=4`, `mem=4096` (spelled
`Rat.ofInt 4096`, the integer 4096 as a rational). -/
def offerA : Offer :=
  { id := 7, resources := [cpusRes 4, memRes (Rat.ofInt 4096)], attributes := [] }

/-- Pool holding only `offerA`, default (absent) strategy for every task. -/
def dA : DefaultResourceManager := AddOffers NewDefaultResourceManager [offerA]

/-- First task of the single-use scenario: demands `cpus=1`. -/
def tA1 : TaskInfo := { name := "t1", resources := [cpusRes 1] }

/-- Second task of the single-use scenario: demands `cpus=1`. -/
def tA2 : TaskInfo := { name := "t2", resources := [cpusRes 1] }

/-- Offer with `cpu=4`, `mem=10`, used to exhibit a partial debit. -/
def offerB : Offer := { id := 1, resources := [cpusRes 4, memRes 10], attributes := [] }

/-- Pool holding only `offerB`. -/
def dB : DefaultResourceManager := AddOffers NewDefaultResourceManager [offerB]

/-- Task demanding `cpus=1` then `mem=100`: the cpu debit succeeds, the mem
check fails. -/
def tB : TaskInfo := { name := "t", resources := [cpusRes 1, memRes 100] }

/-- Offer with `cpu=4`, `mem=10`, used for the mux retention scenario. -/
def offerC : Offer := { id := 2, resources := [cpusRes 4, memRes 10], attributes := [] }

/-- Pool holding only `offerC`, with strategy `"mux"` registered for both
`"t1"` and `"t2"`. -/
def dC : DefaultResourceManager :=
  { offers := [projectOffer offerC], filterOn := fun _ => none,
    strategy := fun n => if n = "t1" ∨ n = "t2" then some "mux" else none }

/-- First mux-scenario task: demands `cpus=1`. -/
def tC1 : TaskInfo := { name := "t1", resources := [cpusRes 1] }

/-- Second mux-scenario task: demands `cpus=2`. -/
def tC2 : TaskInfo := { name := "t2", resources := [cpusRes 2] }

/-- Offer with ample identity and a single TEXT attribute `"foo"`. -/
def offerD : Offer :=
  { id := 3, resources := [],
    attributes := [{ type := Value_Type.TEXT, text := some "foo", scalar := none }] }

/-- Pool holding only `offerD`, no filters registered. -/
def dDno : DefaultResourceManager :=
  { offers := [projectOffer offerD], filterOn := fun _ => none, strategy := fun _ => none }

/-- Same pool, but with a `scalar`-kind filter (terms `["bar"]`) registered
for task `"t"`. -/
def dDyes : DefaultResourceManager :=
  { dDno with filterOn := mapSet dDno.filterOn "t" [{ type := "scalar", value := ["bar"] }] }

/-- Task `"t"` with no resource demands. -/
def tD : TaskInfo := { name := "t", resources := [] }

/-- Offer with `cpu=4`, `mem=10` and disk descriptor tagged `2`. -/
def offerE : Offer :=
  { id := 4, resources := [cpusRes 4, memRes 10, diskRes (some { tag := 2 })],
    attributes := [] }

/-- Pool holding only `offerE`, strategy `"mux"` registered for task `"t"`. -/
def dE : DefaultResourceManager :=
  { offers := [projectOffer offerE], filterOn := fun _ => none,
    strategy := fun n => if n = "t" then some "mux" else none }

/-- Task demanding `cpus=1` and a disk, with its own descriptor tagged `1`. -/
def tE : TaskInfo := { name := "t", resources := [cpusRes 1, diskRes (some { tag := 1 })] }

/-- An element produced by `getLast?` is a member of the list. -/
theorem mem_of_getLastEq {l : List MesosOfferResources} {a : MesosOfferResources}
    (h : l.getLast? = some a) : a ∈ l := by
  cases l with
  | nil => simp at h
  | cons b bs =>
    rw [List.getLast?_eq_getLast _ (by simp)] at h
    exact (Option.some.inj h) ▸ List.getLast_mem _

/-- `popOffer` on a non-empty pool removes exactly one slot. -/
theorem popOffer_length (l : List MesosOfferResources) (i : Nat) (h : l ≠ []) :
    (popOffer l i).length + 1 = l.length := by
  unfold popOffer
  cases hl : l.getLast? with
  | none => rw [List.getLast?_eq_none_iff] at hl; exact absurd hl h
  | some last =>
    have hlen : l.length ≠ 0 := fun h0 => h (List.length_eq_zero.mp h0)
    simp only [List.length_dropLast, List.length_set]
    omega

/-- Every entry of `popOffer l i` is an entry of `l`. -/
theorem mem_popOffer {l : List MesosOfferResources} {i : Nat} {e : MesosOfferResources}
    (h : e ∈ popOffer l i) : e ∈ l := by
  unfold popOffer at h
  cases hl : l.getLast? with
  | none => rwa [hl] at h
  | some last =>
    rw [hl] at h
    have h1 : e ∈ l.set i last := List.mem_of_mem_dropLast h
    rcases List.mem_or_eq_of_mem_set h1 with h2 | rfl
    · exact h2
    · exact mem_of_getLastEq hl

/-- The pool built by the `AddOffers` fold is the old pool plus the projected
batch. -/
theorem foldl_offers (batch : List Offer) :
    ∀ st : DefaultResourceManager,
      (batch.foldl (fun st o => { st with offers := st.offers ++ [projectOffer o] }) st).offers
        = st.offers ++ batch.map projectOffer := by
  induction batch with
  | nil => intro st; simp
  | cons o rest ih => intro st; simp [List.foldl_cons, ih]

/-- `AddOffers` replaces the pool by the projection of the batch. -/
theorem AddOffers_offers (d : DefaultResourceManager) (batch : List Offer) :
    (AddOffers d batch).offers = batch.map projectOffer := by
  simp [AddOffers, clearOffers, foldl_offers]

/-- The projection loop yields non-negative capacities when the batch's scalar
values are non-negative. -/
theorem projectResources_nonneg (rs : List Resource) (m : MesosOfferResources)
    (hr : ∀ r ∈ rs, 0 ≤ r.scalar.getD 0) (hc : 0 ≤ m.Cpu) (hm : 0 ≤ m.Mem) :
    0 ≤ (projectResources rs m).Cpu ∧ 0 ≤ (projectResources rs m).Mem := by
  induction rs generalizing m with
  | nil => exact ⟨hc, hm⟩
  | cons r rest ih =>
    have hr0 : 0 ≤ r.scalar.getD 0 := hr r (by simp)
    have hrest : ∀ r' ∈ rest, 0 ≤ r'.scalar.getD 0 := fun r' h' => hr r' (by simp [h'])
    unfold projectResources
    split_ifs with h1 h2 h3
    · exact ih _ hrest hr0 hm
    · exact ih _ hrest hc hr0
    · exact ih _ hrest hc hm
    · exact ih _ hrest hc hm

/-- A failing cpu allocation returns the entry unchanged. -/
theorem allocateCpuResource_fail (c : ℚ) (e : MesosOfferResources)
    (h : ¬ e.Cpu - c ≥ 0) : allocateCpuResource c e = (e, false) := by
  simp [allocateCpuResource, h]

/-- A failing mem allocation returns the entry unchanged. -/
theorem allocateMemResource_fail (m : ℚ) (e : MesosOfferResources)
    (h : ¬ e.Mem - m ≥ 0) : allocateMemResource m e = (e, false) := by
  simp [allocateMemResource, h]

/-- Cpu allocation never drives a non-negative `Cpu` negative. -/
theorem allocateCpuResource_nonneg (c : ℚ) (e : MesosOfferResources) (h : 0 ≤ e.Cpu) :
    0 ≤ (allocateCpuResource c e).1.Cpu := by
  unfold allocateCpuResource
  split_ifs with hc
  · simpa using hc
  · simpa using h

/-- Mem allocation never drives a non-negative `Mem` negative. -/
theorem allocateMemResource_nonneg (m : ℚ) (e : MesosOfferResources) (h : 0 ≤ e.Mem) :
    0 ≤ (allocateMemResource m e).1.Mem := by
  unfold allocateMemResource
  split_ifs with hm
  · simpa using hm
  · simpa using h

/-- Cpu allocation leaves `Mem` untouched. -/
theorem allocateCpuResource_Mem (c : ℚ) (e : MesosOfferResources) :
    (allocateCpuResource c e).1.Mem = e.Mem := by
  unfold allocateCpuResource
  split_ifs <;> rfl

/-- Mem allocation leaves `Cpu` untouched. -/
theorem allocateMemResource_Cpu (m : ℚ) (e : MesosOfferResources) :
    (allocateMemResource m e).1.Cpu = e.Cpu := by
  unfold allocateMemResource
  split_ifs <;> rfl

/-- Disk allocation touches neither scalar capacity. -/
theorem allocateDiskResource_scalars (r : Resource) (e : MesosOfferResources) :
    (allocateDiskResource r e).1.Cpu = e.Cpu ∧ (allocateDiskResource r e).1.Mem = e.Mem := by
  unfold allocateDiskResource
  cases r.disk <;> exact ⟨rfl, rfl⟩

/-- The resource loop keeps both capacities non-negative. -/
theorem consumeResources_nonneg (rs : List Resource) (e : MesosOfferResources)
    (hc : 0 ≤ e.Cpu) (hm : 0 ≤ e.Mem) :
    0 ≤ (consumeResources rs e).1.Cpu ∧ 0 ≤ (consumeResources rs e).1.Mem := by
  induction rs generalizing e with
  | nil => exact ⟨hc, hm⟩
  | cons r rest ih =>
    unfold consumeResources
    split_ifs with h1 h2 h3
    · unfold allocateCpuResource
      split_ifs with hcap
      · exact ih _ (by simpa using hcap) hm
      · exact ⟨hc, hm⟩
    · unfold allocateMemResource
      split_ifs with hcap
      · exact ih _ hc (by simpa using hcap)
      · exact ⟨hc, hm⟩
    · have hs := allocateDiskResource_scalars r e
      exact ih _ (hs.1 ▸ hc) (hs.2 ▸ hm)
    · exact ih _ hc hm

/-- The success flag and the scalar capacities produced by the resource loop
depend only on the entry's scalar capacities. -/
theorem consumeResources_congr (rs : List Resource) :
    ∀ e e' : MesosOfferResources, e.Cpu = e'.Cpu → e.Mem = e'.Mem →
      (consumeResources rs e).2 = (consumeResources rs e').2 ∧
      (consumeResources rs e).1.Cpu = (consumeResources rs e').1.Cpu ∧
      (consumeResources rs e).1.Mem = (consumeResources rs e').1.Mem := by
  induction rs with
  | nil => intro e e' hc hm; exact ⟨rfl, hc, hm⟩
  | cons r rest ih =>
    intro e e' hc hm
    unfold consumeResources
    split_ifs with h1 h2 h3
    · unfold allocateCpuResource
      rw [← hc]
      split_ifs with hcap
      · exact ih _ _ (by simp) (by simp [hm])
      · exact ⟨rfl, hc, hm⟩
    · unfold allocateMemResource
      rw [← hm]
      split_ifs with hcap
      · exact ih _ _ (by simp [hc]) (by simp)
      · exact ⟨rfl, hc, hm⟩
    · have hs := allocateDiskResource_scalars r e
      have hs' := allocateDiskResource_scalars r e'
      exact ih _ _ (by rw [hs.1, hs'.1, hc]) (by rw [hs.2, hs'.2, hm])
    · exact ih _ _ hc hm

/-- Dropping every `"disk"` demand changes neither the success flag nor the
resulting scalar capacities of the resource loop: disk demands are never the
reason an offer is skipped and consume no capacity. -/
theorem consumeResources_skip_disk (rs : List Resource) :
    ∀ e : MesosOfferResources,
      (consumeResources (rs.filter fun r => !(r.name == "disk")) e).2
          = (consumeResources rs e).2 ∧
      (consumeResources (rs.filter fun r => !(r.name == "disk")) e).1.Cpu
          = (consumeResources rs e).1.Cpu ∧
      (consumeResources (rs.filter fun r => !(r.name == "disk")) e).1.Mem
          = (consumeResources rs e).1.Mem := by
  induction rs with
  | nil => intro e; exact ⟨rfl, rfl, rfl⟩
  | cons r rest ih =>
    intro e
    by_cases hd : r.name = "disk"
    · have hb : (r.name == "disk") = true := beq_iff_eq.mpr hd
      have hfil : (r :: rest).filter (fun r => !(r.name == "disk"))
          = rest.filter (fun r => !(r.name == "disk")) := by
        simp [List.filter_cons, hb]
      have hd1 : ¬ r.name = "cpus" := by simp [hd]
      have hd2 : ¬ r.name = "mem" := by simp [hd]
      have hstep : consumeResources (r :: rest) e
          = consumeResources rest (allocateDiskResource r e).1 := by
        simp only [consumeResources]
        simp [hd1, hd2, hd]
      rw [hfil, hstep]
      have hs := allocateDiskResource_scalars r e
      have h1 := ih e
      have h2 := consumeResources_congr rest e (allocateDiskResource r e).1 hs.1.symm hs.2.symm
      exact ⟨h1.1.trans h2.1, h1.2.1.trans h2.2.1, h1.2.2.trans h2.2.2⟩
    · have hb : (r.name == "disk") = false := beq_eq_false_iff_ne.mpr hd
      have hfil : (r :: rest).filter (fun r => !(r.name == "disk"))
          = r :: rest.filter (fun r => !(r.name == "disk")) := by
        simp [List.filter_cons, hb]
      rw [hfil]
      by_cases h1 : r.name = "cpus"
      · by_cases hcap : e.Cpu - r.scalar.getD 0 ≥ 0
        · simp only [consumeResources]
          simp [h1, allocateCpuResource, hcap]
          exact ih _
        · simp only [consumeResources]
          simp [h1, allocateCpuResource, hcap]
      · by_cases h2 : r.name = "mem"
        · by_cases hcap : e.Mem - r.scalar.getD 0 ≥ 0
          · simp only [consumeResources]
            simp [h1, h2, allocateMemResource, hcap]
            exact ih _
          · simp only [consumeResources]
            simp [h1, h2, allocateMemResource, hcap]
        · simp only [consumeResources]
          simp [h1, h2, hd]
          exact ih _

/-- A scan that exhausts the pool leaves the pool's length unchanged (entries
may have been mutated in place, none is removed). -/
theorem assignScan_none_length (d : DefaultResourceManager) (t : TaskInfo) :
    ∀ (fuel : Nat) (pool : List MesosOfferResources) (i : Nat)
      (pool' : List MesosOfferResources),
      assignScan d t fuel pool i = (none, pool') → pool'.length = pool.length := by
  intro fuel
  induction fuel with
  | zero =>
    intro pool i pool' h
    simp only [assignScan] at h
    exact (Prod.mk.injEq _ _ _ _ ▸ h).2 ▸ rfl
  | succ fuel ih =>
    intro pool i pool' h
    simp only [assignScan] at h
    by_cases hi : i < pool.length
    · rw [dif_pos hi] at h
      rcases hft : d.filterOn t.name with _ | fs <;> rw [hft] at h <;> simp only at h
      · rcases hcons : consumeResources t.resources (pool.get ⟨i, hi⟩) with ⟨e1, b⟩
        rw [hcons] at h
        cases b
        · have := ih _ _ _ h
          simpa [List.length_set] using this
        · simp only at h
          exfalso
          revert h
          split_ifs <;> intro h <;> simpa using congrArg Prod.fst h
      · by_cases hpass : filter fs (pool.get ⟨i, hi⟩).Offer = true
        · rw [if_pos hpass] at h
          rcases hcons : consumeResources t.resources (pool.get ⟨i, hi⟩) with ⟨e1, b⟩
          rw [hcons] at h
          cases b
          · have := ih _ _ _ h
            simpa [List.length_set] using this
          · simp only at h
            exfalso
            revert h
            split_ifs <;> intro h <;> simpa using congrArg Prod.fst h
        · rw [if_neg hpass] at h
          exact ih _ _ _ h
    · rw [dif_neg hi] at h
      exact (Prod.mk.injEq _ _ _ _ ▸ h).2 ▸ rfl

/-- A successful scan found its match at some index `j` of an intermediate
pool `mid` (the input pool with some entries mutated by failed allocation
attempts, so of the same length): the returned offer is the raw offer of the
debited, accepted entry `e`, the entry is written back at `j`, and the
retention policy decides whether slot `j` is then popped. -/
theorem assignScan_some_spec (d : DefaultResourceManager) (t : TaskInfo) :
    ∀ (fuel : Nat) (pool : List MesosOfferResources) (i : Nat) (o : Offer)
      (pool' : List MesosOfferResources),
      assignScan d t fuel pool i = (some o, pool') →
      ∃ (j : Nat) (e : MesosOfferResources) (mid : List MesosOfferResources),
        mid.length = pool.length ∧ j < mid.length ∧ e.Offer = o ∧ e.Accepted = true ∧
        pool' = (if strToLower ((d.strategy t.name).getD "non-mux") = strToLower "mux" then
                   if e.Mem = 0 ∨ e.Cpu = 0 then popOffer (mid.set j e) j else mid.set j e
                 else popOffer (mid.set j e) j) := by
  intro fuel
  induction fuel with
  | zero =>
    intro pool i o pool' h
    simp only [assignScan] at h
    exact absurd (Prod.mk.injEq _ _ _ _ ▸ h).1 (by simp)
  | succ fuel ih =>
    intro pool i o pool' h
    simp only [assignScan] at h
    by_cases hi : i < pool.length
    · rw [dif_pos hi] at h
      rcases hft : d.filterOn t.name with _ | fs <;> rw [hft] at h <;> simp only at h
      · rcases hcons : consumeResources t.resources (pool.get ⟨i, hi⟩) with ⟨e1, b⟩
        rw [hcons] at h
        cases b
        · simp only at h
          rcases ih _ _ _ _ h with ⟨j, e, mid, hlen, hj, ho, hacc, hpool⟩
          exact ⟨j, e, mid, by simpa [List.length_set] using hlen, hj, ho, hacc, hpool⟩
        · simp only at h
          refine ⟨i, { e1 with Accepted := true }, pool, rfl, hi, ?_⟩
          revert h
          split_ifs with hmux hzero <;> intro h <;>
            rcases Prod.mk.injEq _ _ _ _ ▸ h with ⟨h1, h2⟩ <;>
            exact ⟨by simpa using (Option.some.inj h1).symm ▸ rfl, rfl, h2.symm⟩
      · by_cases hpass : filter fs (pool.get ⟨i, hi⟩).Offer = true
        · rw [if_pos hpass] at h
          rcases hcons : consumeResources t.resources (pool.get ⟨i, hi⟩) with ⟨e1, b⟩
          rw [hcons] at h
          cases b
          · simp only at h
            rcases ih _ _ _ _ h with ⟨j, e, mid, hlen, hj, ho, hacc, hpool⟩
            exact ⟨j, e, mid, by simpa [List.length_set] using hlen, hj, ho, hacc, hpool⟩
          · simp only at h
            refine ⟨i, { e1 with Accepted := true }, pool, rfl, hi, ?_⟩
            revert h
            split_ifs with hmux hzero <;> intro h <;>
              rcases Prod.mk.injEq _ _ _ _ ▸ h with ⟨h1, h2⟩ <;>
              exact ⟨by simpa using (Option.some.inj h1).symm ▸ rfl, rfl, h2.symm⟩
        · rw [if_neg hpass] at h
          exact ih _ _ _ _ h
    · rw [dif_neg hi] at h
      exact absurd (Prod.mk.injEq _ _ _ _ ▸ h).1 (by simp)

/-- Entries written during the scan stay non-negative: every pool produced by
`assignScan` from a non-negative pool is non-negative, whether the scan
matched or exhausted. -/
theorem assignScan_nonneg (d : DefaultResourceManager) (t : TaskInfo) :
    ∀ (fuel : Nat) (pool : List MesosOfferResources) (i : Nat)
      (ores : Option Offer) (pool' : List MesosOfferResources),
      assignScan d t fuel pool i = (ores, pool') →
      (∀ e ∈ pool, 0 ≤ e.Cpu ∧ 0 ≤ e.Mem) →
      ∀ e' ∈ pool', 0 ≤ e'.Cpu ∧ 0 ≤ e'.Mem := by
  intro fuel
  induction fuel with
  | zero =>
    intro pool i ores pool' h hp
    simp only [assignScan] at h
    exact (Prod.mk.injEq _ _ _ _ ▸ h).2 ▸ hp
  | succ fuel ih =>
    intro pool i ores pool' h hp
    simp only [assignScan] at h
    by_cases hi : i < pool.length
    · rw [dif_pos hi] at h
      have hget : pool.get ⟨i, hi⟩ ∈ pool := pool.get_mem i hi
      have hgetnn := hp _ hget
      rcases hft : d.filterOn t.name with _ | fs <;> rw [hft] at h <;> simp only at h
      · rcases hcons : consumeResources t.resources (pool.get ⟨i, hi⟩) with ⟨e1, b⟩
        have he1 : 0 ≤ e1.Cpu ∧ 0 ≤ e1.Mem := by
          have := consumeResources_nonneg t.resources (pool.get ⟨i, hi⟩) hgetnn.1 hgetnn.2
          rwa [hcons] at this
        rw [hcons] at h
        cases b
        · simp only at h
          refine ih _ _ _ _ h (fun e he => ?_)
          rcases List.mem_or_eq_of_mem_set he with h2 | rfl
          · exact hp _ h2
          · exact he1
        · simp only at h
          have hsetnn : ∀ e ∈ pool.set i { e1 with Accepted := true },
              0 ≤ e.Cpu ∧ 0 ≤ e.Mem := by
            intro e he
            rcases List.mem_or_eq_of_mem_set he with h2 | rfl
            · exact hp _ h2
            · exact he1
          revert h
          split_ifs <;> intro h <;>
            rcases Prod.mk.injEq _ _ _ _ ▸ h with ⟨h1, h2⟩ <;>
            intro e' he' <;> rw [← h2] at he' <;>
            first
            | exact hsetnn _ (mem_popOffer he')
            | exact hsetnn _ he'
      · by_cases hpass : filter fs (pool.get ⟨i, hi⟩).Offer = true
        · rw [if_pos hpass] at h
          rcases hcons : consumeResources t.resources (pool.get ⟨i, hi⟩) with ⟨e1, b⟩
          have he1 : 0 ≤ e1.Cpu ∧ 0 ≤ e1.Mem := by
            have := consumeResources_nonneg t.resources (pool.get ⟨i, hi⟩) hgetnn.1 hgetnn.2
            rwa [hcons] at this
          rw [hcons] at h
          cases b
          · simp only at h
            refine ih _ _ _ _ h (fun e he => ?_)
            rcases List.mem_or_eq_of_mem_set he with h2 | rfl
            · exact hp _ h2
            · exact he1
          · simp only at h
            have hsetnn : ∀ e ∈ pool.set i { e1 with Accepted := true },
                0 ≤ e.Cpu ∧ 0 ≤ e.Mem := by
              intro e he
              rcases List.mem_or_eq_of_mem_set he with h2 | rfl
              · exact hp _ h2
              · exact he1
            revert h
            split_ifs <;> intro h <;>
              rcases Prod.mk.injEq _ _ _ _ ▸ h with ⟨h1, h2⟩ <;>
              intro e' he' <;> rw [← h2] at he' <;>
              first
              | exact hsetnn _ (mem_popOffer he')
              | exact hsetnn _ he'

        · rw [if_neg hpass] at h
          exact ih _ _ _ _ h hp
    · rw [dif_neg hi] at h
      exact (Prod.mk.injEq _ _ _ _ ▸ h).2 ▸ hp

/-- A failed `Assign` is exactly a scan that exhausted, and the state keeps
the scan's (possibly mutated) pool. -/
theorem Assign_error_offers (d : DefaultResourceManager) (t : TaskInfo) (msg : String)
    (d' : DefaultResourceManager) (h : Assign d t = (Except.error msg, d')) :
    assignScan d t d.offers.length d.offers 0 = (none, d'.offers) := by
  unfold Assign at h
  rcases hs : assignScan d t d.offers.length d.offers 0 with ⟨ores, pool'⟩
  rw [hs] at h
  cases ores
  · simp only at h
    rcases Prod.mk.injEq _ _ _ _ ▸ h with ⟨h1, h2⟩
    rw [← h2]
  · simp only at h
    exact absurd (Prod.mk.injEq _ _ _ _ ▸ h).1 (fun he => Except.noConfusion he)

/-- A successful `Assign` is exactly a scan that matched, and the state keeps
the scan's pool. -/
theorem Assign_ok_offers (d : DefaultResourceManager) (t : TaskInfo) (o : Offer)
    (d' : DefaultResourceManager) (h : Assign d t = (Except.ok o, d')) :
    assignScan d t d.offers.length d.offers 0 = (some o, d'.offers) := by
  unfold Assign at h
  rcases hs : assignScan d t d.offers.length d.offers 0 with ⟨ores, pool'⟩
  rw [hs] at h
  cases ores
  · simp only at h
    exact absurd (Prod.mk.injEq _ _ _ _ ▸ h).1 (fun he => Except.noConfusion he)
  · simp only at h
    rcases Prod.mk.injEq _ _ _ _ ▸ h with ⟨h1, h2⟩
    rw [← h2, Except.ok.inj h1]

/-- The attribute loop accepts exactly when some TEXT attribute's text value
equals the first term case-insensitively. -/
theorem filterAttrs_iff (tm : String) (rest : List String) (attrs : List Attribute) :
    filterAttrs (tm :: rest) attrs = true ↔
      ∃ a ∈ attrs, a.type = Value_Type.TEXT ∧ strToLower tm = strToLower (a.text.getD "") := by
  induction attrs with
  | nil => simp [filterAttrs]
  | cons a attrs' ih =>
    cases ha : a.type
    · simp [filterAttrs, ha, ih]
    · by_cases hm : strToLower tm = strToLower (a.text.getD "")
      · simp [filterAttrs, ha, filterOnAttrText, hm]
      · simp [filterAttrs, ha, filterOnAttrText, hm, ih]
    · simp [filterAttrs, ha, ih]
    · simp [filterAttrs, ha, ih]

/-- Terms after the first never influence the attribute loop. -/
theorem filterAttrs_first_term (tm : String) (rest rest' : List String)
    (attrs : List Attribute) :
    filterAttrs (tm :: rest) attrs = filterAttrs (tm :: rest') attrs := by
  induction attrs with
  | nil => rfl
  | cons a attrs' ih => cases ha : a.type <;> simp [filterAttrs, ha, filterOnAttrText, ih]

/-- Evaluating a single filter is the attribute loop on its terms. -/
theorem filter_singleton (f : Filter) (o : Offer) :
    filter [f] o = filterAttrs f.value o.attributes := by
  by_cases h : filterAttrs f.value o.attributes = true <;> simp [filter, h]

/-- `isValidKind` spelled out. -/
theorem isValidKind_iff (k : String) :
    isValidKind k = true ↔ (strToLower k = "ranges" ∨ strToLower k = "set" ∨
      strToLower k = "text" ∨ strToLower k = "scalar" ∨ strToLower k = "strategy") := by
  simp [isValidKind]

/-- Registering a list of recognized filters succeeds with no error. -/
theorem AddFilter_valid_ok :
    ∀ (pre : List Filter) (d : DefaultResourceManager) (t : TaskInfo),
      (∀ g ∈ pre, isValidKind g.type = true ∧ (strToLower g.type = "strategy" → g.value ≠ [])) →
      ∃ d₁, AddFilter d t pre = some (d₁, none) := by
  intro pre
  induction pre with
  | nil => intro d t _; exact ⟨d, rfl⟩
  | cons f pre' ih =>
    intro d t hv
    have hf := hv f (by simp)
    have hrest : ∀ g ∈ pre', isValidKind g.type = true ∧
        (strToLower g.type = "strategy" → g.value ≠ []) := fun g hg => hv g (by simp [hg])
    by_cases h4 : strToLower f.type = "ranges" ∨ strToLower f.type = "set" ∨
        strToLower f.type = "text" ∨ strToLower f.type = "scalar"
    · rcases hft : d.filterOn t.name with _ | list
      · rcases ih { d with filterOn := mapSet d.filterOn t.name [{ type := f.type, value := f.value }] } t hrest with ⟨d₁, h1⟩
        exact ⟨d₁, by simp only [AddFilter, if_pos h4, hft, h1]⟩
      · rcases ih { d with filterOn := mapSet d.filterOn t.name (list ++ [{ type := f.type, value := f.value }]) } t hrest with ⟨d₁, h1⟩
        exact ⟨d₁, by simp only [AddFilter, if_pos h4, hft, h1]⟩
    · have hs : strToLower f.type = "strategy" := by
        rcases (isValidKind_iff f.type).mp hf.1 with h | h | h | h | h
        · exact absurd (Or.inl h) h4
        · exact absurd (Or.inr (Or.inl h)) h4
        · exact absurd (Or.inr (Or.inr (Or.inl h))) h4
        · exact absurd (Or.inr (Or.inr (Or.inr h))) h4
        · exact h
      rcases hval : f.value with _ | ⟨v, vs⟩
      · exact absurd hval (hf.2 hs)
      · rcases ih { d with strategy := mapSet d.strategy t.name v } t hrest with ⟨d₁, h1⟩
        exact ⟨d₁, by simp only [AddFilter, if_neg h4, if_pos hs, hval, h1]⟩

/-- Registration is compositional: after a prefix that succeeded with no
error, the remaining filters are processed from the prefix's final state. -/
theorem AddFilter_append :
    ∀ (pre : List Filter) (d : DefaultResourceManager) (t : TaskInfo)
      (d₁ : DefaultResourceManager) (rest : List Filter),
      AddFilter d t pre = some (d₁, none) →
      AddFilter d t (pre ++ rest) = AddFilter d₁ t rest := by
  intro pre
  induction pre with
  | nil =>
    intro d t d₁ rest h
    rcases Prod.mk.injEq _ _ _ _ ▸ Option.some.inj h with ⟨h1, _⟩
    rw [List.nil_append, h1]
  | cons f pre' ih =>
    intro d t d₁ rest h
    by_cases h4 : strToLower f.type = "ranges" ∨ strToLower f.type = "set" ∨
        strToLower f.type = "text" ∨ strToLower f.type = "scalar"
    · rcases hft : d.filterOn t.name with _ | list
      · simp only [AddFilter, if_pos h4, hft] at h ⊢
        exact ih _ _ _ _ h
      · simp only [AddFilter, if_pos h4, hft] at h ⊢
        exact ih _ _ _ _ h
    · by_cases hs : strToLower f.type = "strategy"
      · rcases hval : f.value with _ | ⟨v, vs⟩
        · rw [AddFilter.eq_def] at h
          simp only [if_neg h4, if_pos hs, hval] at h
          exact Option.noConfusion h
        · simp only [AddFilter, if_neg h4, if_pos hs, hval] at h ⊢
          exact ih _ _ _ _ h
      · rw [AddFilter.eq_def] at h
        simp only [if_neg h4, if_neg hs] at h
        rcases Prod.mk.injEq _ _ _ _ ▸ Option.some.inj h with ⟨_, h2⟩
        exact Option.noConfusion h2

/-- An unrecognized kind at the head stops registration immediately with the
invalid-kind error, leaving the state untouched. -/
theorem AddFilter_invalid_head (d : DefaultResourceManager) (t : TaskInfo)
    (f : Filter) (post : List Filter) (hbad : isValidKind f.type = false) :
    AddFilter d t (f :: post) = some (d, some ("Invalid filter passed in: " ++ f.type ++
      ". Allowed filters are SCALAR, TEXT, SET, RANGES, and STRATEGY.")) := by
  have hnone : ¬ (strToLower f.type = "ranges" ∨ strToLower f.type = "set" ∨
      strToLower f.type = "text" ∨ strToLower f.type = "scalar" ∨
      strToLower f.type = "strategy") := by
    intro hcon
    rw [← isValidKind_iff] at hcon
    rw [hbad] at hcon
    exact Bool.noConfusion hcon
  have h4 : ¬ (strToLower f.type = "ranges" ∨ strToLower f.type = "set" ∨
      strToLower f.type = "text" ∨ strToLower f.type = "scalar") := fun hx => hnone (by tauto)
  have hs : ¬ strToLower f.type = "strategy" := fun hx => hnone (by tauto)
  rw [AddFilter.eq_def]
  simp only [if_neg h4, if_neg hs]

/-- A strategy filter with an empty value list, preceded only by recognized
kinds, makes `AddFilter` panic (read of `f.Value[0]` out of range). -/
theorem AddFilter_strategy_empty :
    ∀ (pre : List Filter) (d : DefaultResourceManager) (t : TaskInfo)
      (f : Filter) (post : List Filter),
      (∀ g ∈ pre, isValidKind g.type = true) →
      strToLower f.type = "strategy" → f.value = [] →
      AddFilter d t (pre ++ f :: post) = none := by
  intro pre
  induction pre with
  | nil =>
    intro d t f post _ hs hval
    have h4 : ¬ (strToLower f.type = "ranges" ∨ strToLower f.type = "set" ∨
        strToLower f.type = "text" ∨ strToLower f.type = "scalar") := by
      rw [hs]
      decide
    rw [List.nil_append, AddFilter.eq_def]
    simp only [if_neg h4, if_pos hs, hval]
  | cons g pre' ih =>
    intro d t f post hv hs hval
    have hg := hv g (by simp)
    have hrest : ∀ g' ∈ pre', isValidKind g'.type = true := fun g' hg' => hv g' (by simp [hg'])
    by_cases h4 : strToLower g.type = "ranges" ∨ strToLower g.type = "set" ∨
        strToLower g.type = "text" ∨ strToLower g.type = "scalar"
    · rcases hft : d.filterOn t.name with _ | list
      · rw [List.cons_append, AddFilter.eq_def]
        simp only [if_pos h4, hft]
        exact ih _ _ _ _ hrest hs hval
      · rw [List.cons_append, AddFilter.eq_def]
        simp only [if_pos h4, hft]
        exact ih _ _ _ _ hrest hs hval
    · have hgs : strToLower g.type = "strategy" := by
        rcases (isValidKind_iff g.type).mp hg with h | h | h | h | h
        · exact absurd (Or.inl h) h4
        · exact absurd (Or.inr (Or.inl h)) h4
        · exact absurd (Or.inr (Or.inr (Or.inl h))) h4
        · exact absurd (Or.inr (Or.inr (Or.inr h))) h4
        · exact h
      rcases hgval : g.value with _ | ⟨v, vs⟩
      · rw [List.cons_append, AddFilter.eq_def]
        simp only [if_neg h4, if_pos hgs, hgval]
      · rw [List.cons_append, AddFilter.eq_def]
        simp only [if_neg h4, if_pos hgs, hgval]
        exact ih _ _ _ _ hrest hs hval

/-- C8: `AddOffers` unconditionally discards the whole existing pool and
repopulates it from the new batch alone, so `HasResources` right after
`AddOffers` is true exactly when the batch was non-empty; in particular a
second `AddOffers` with an empty batch makes `HasResources` false even if the
prior offers were never consumed. -/
theorem C8_addOffers_rebuilds_pool :
    (∀ (d : DefaultResourceManager) (batch : List Offer),
        (AddOffers d batch).offers = batch.map projectOffer) ∧
    (∀ (d : DefaultResourceManager) (batch : List Offer),
        HasResources (AddOffers d batch) = !batch.isEmpty) ∧
    (∀ d : DefaultResourceManager, HasResources (AddOffers d []) = false) := by
  refine ⟨AddOffers_offers, fun d batch => ?_, fun d => ?_⟩
  · unfold HasResources
    rw [AddOffers_offers, List.length_map]
    cases batch <;> simp
  · unfold HasResources
    rw [AddOffers_offers]
    simp

/-- C3 (amended): the claim that scalar/set/ranges filters have no effect on
admission is false (see the counterexample); what holds is that `filter`
never inspects a registered filter's kind at all — rewriting every filter's
kind arbitrarily leaves the verdict unchanged, so a scalar, set or ranges
filter constrains admission exactly as a text filter with the same terms
would, and only the term lists matter (`filterOnAttrScalar` is dead code,
never invoked by `filter`). -/
theorem C3_filter_kind_never_inspected :
    ∀ (g : Filter → String) (fs : List Filter) (o : Offer),
      filter (fs.map fun f => { f with type := g f }) o = filter fs o := by
  intro g fs o
  induction fs with
  | nil => rfl
  | cons f fs' ih => simp [filter, ih]

/-- C3 counterexample: the same task and offer are admitted when no filter is
registered, but rejected when a `scalar`-kind filter is registered — a
scalar filter does affect admission, contradicting the claim as stated. -/
theorem C3_counterexample :
    (Assign dDno tD).1 = Except.ok offerD ∧
    (Assign dDyes tD).1 = Except.error "Cannot find a suitable offer for task t" := by
  refine ⟨?_, ?_⟩ <;> with_unfolding_all rfl

/-- C4: for a registered text filter with term list `tm :: rest`, filter
evaluation accepts exactly when some TEXT attribute of the offer equals the
first term case-insensitively, and the terms after the first never influence
the verdict (evaluation of an attribute returns false immediately when the
first term does not match). -/
theorem C4_text_filter_first_term_only :
    ∀ (f : Filter) (o : Offer) (tm : String) (rest : List String),
      strToLower f.type = "text" → f.value = tm :: rest →
      ((filter [f] o = true ↔
          ∃ a ∈ o.attributes, a.type = Value_Type.TEXT ∧
            strToLower tm = strToLower (a.text.getD "")) ∧
        ∀ rest' : List String,
          filter [{ type := f.type, value := tm :: rest' }] o = filter [f] o) := by
  intro f o tm rest _ hval
  constructor
  · rw [filter_singleton, hval]
    exact filterAttrs_iff tm rest o.attributes
  · intro rest'
    rw [filter_singleton, filter_singleton, hval]
    exact filterAttrs_first_term tm rest' rest o.attributes

/-- C4 witness: the theorem instantiated at a concrete text filter and the
concrete offer whose only attribute is the TEXT value `"foo"`. -/
theorem C4_witness :
    ((filter [{ type := "text", value := ["foo", "zzz"] }] offerD = true ↔
        ∃ a ∈ offerD.attributes, a.type = Value_Type.TEXT ∧
          strToLower "foo" = strToLower (a.text.getD "")) ∧
      filter [{ type := "text", value := ["foo"] }] offerD
        = filter [{ type := "text", value := ["foo", "zzz"] }] offerD) :=
  ⟨(C4_text_filter_first_term_only { type := "text", value := ["foo", "zzz"] } offerD
      "foo" ["zzz"] (by decide) rfl).1,
   (C4_text_filter_first_term_only { type := "text", value := ["foo", "zzz"] } offerD
      "foo" ["zzz"] (by decide) rfl).2 []⟩

/-- Registration never touches the offer pool. -/
theorem AddFilter_offers :
    ∀ (fs : List Filter) (d : DefaultResourceManager) (t : TaskInfo)
      (r : DefaultResourceManager × Option String),
      AddFilter d t fs = some r → r.1.offers = d.offers := by
  intro fs
  induction fs with
  | nil =>
    intro d t r h
    rw [← Option.some.inj h]
  | cons f fs' ih =>
    intro d t r h
    by_cases h4 : strToLower f.type = "ranges" ∨ strToLower f.type = "set" ∨
        strToLower f.type = "text" ∨ strToLower f.type = "scalar"
    · rcases hft : d.filterOn t.name with _ | list
      · simp only [AddFilter, if_pos h4, hft] at h
        have h2 := ih _ _ _ h
        exact h2
      · simp only [AddFilter, if_pos h4, hft] at h
        have h2 := ih _ _ _ h
        exact h2
    · by_cases hs : strToLower f.type = "strategy"
      · rcases hval : f.value with _ | ⟨v, vs⟩
        · simp only [AddFilter, if_neg h4, if_pos hs, hval] at h
          exact Option.noConfusion h
        · simp only [AddFilter, if_neg h4, if_pos hs, hval] at h
          have h2 := ih _ _ _ h
          exact h2
      · simp only [AddFilter, if_neg h4, if_neg hs] at h
        rw [← Option.some.inj h]

/-- C1 (amended): a single `Assign` returns one matched offer or fails, and
never removes a pool entry other than (at most) the matched one: a failing
`Assign` keeps the pool's length, a successful one shrinks it by at most one.
Each individual failing scalar-capacity check leaves the entry unchanged —
but debits already applied by earlier demands of the same task persist on a
skipped offer (see the counterexample), so the call is not atomic as claimed. -/
theorem C1_assign_removes_at_most_match :
    (∀ (d : DefaultResourceManager) (t : TaskInfo) (msg : String)
        (d' : DefaultResourceManager),
        Assign d t = (Except.error msg, d') → d'.offers.length = d.offers.length) ∧
    (∀ (d : DefaultResourceManager) (t : TaskInfo) (o : Offer)
        (d' : DefaultResourceManager),
        Assign d t = (Except.ok o, d') →
          d'.offers.length = d.offers.length ∨ d'.offers.length + 1 = d.offers.length) ∧
    (∀ (c : ℚ) (e : MesosOfferResources), ¬ e.Cpu - c ≥ 0 →
        allocateCpuResource c e = (e, false)) ∧
    (∀ (m : ℚ) (e : MesosOfferResources), ¬ e.Mem - m ≥ 0 →
        allocateMemResource m e = (e, false)) := by
  refine ⟨fun d t msg d' h => ?_, fun d t o d' h => ?_,
    allocateCpuResource_fail, allocateMemResource_fail⟩
  · exact assignScan_none_length d t _ _ _ _ (Assign_error_offers d t msg d' h)
  · rcases assignScan_some_spec d t _ _ _ _ _ (Assign_ok_offers d t o d' h) with
      ⟨j, e, mid, hlen, hj, _, _, hpool⟩
    have hne : mid.set j e ≠ [] := by
      have h0 : 0 < (mid.set j e).length := by rw [List.length_set]; omega
      exact List.length_pos.mp h0
    have hls : (mid.set j e).length = d.offers.length := by rw [List.length_set]; exact hlen
    revert hpool
    split_ifs <;> intro hpool
    · right
      rw [hpool, popOffer_length (mid.set j e) j hne, hls]
    · left
      rw [hpool, List.length_set, hlen]
    · right
      rw [hpool, popOffer_length (mid.set j e) j hne, hls]

/-- C1 counterexample: with one offer `cpu=4, mem=10` and a task demanding
`cpus=1` then `mem=100`, `Assign` fails — yet the skipped offer is left in
the pool with `Cpu` already debited to 3: an offer other than a returned
match was mutated, contradicting the claimed atomicity. -/
theorem C1_counterexample :
    dB.offers = [{ Offer := offerB, Cpu := 4, Mem := 10, Disk := none, Accepted := false }] ∧
    (Assign dB tB).1 = Except.error "Cannot find a suitable offer for task t" ∧
    (Assign dB tB).2.offers
      = [{ Offer := offerB, Cpu := 3, Mem := 10, Disk := none, Accepted := false }] := by
  refine ⟨?_, ?_, ?_⟩ <;> with_unfolding_all rfl

/-- C1 witness: the amended theorem's failure clause applied to the concrete
failing `Assign` above. -/
theorem C1_witness : (Assign dB tB).2.offers.length = dB.offers.length :=
  C1_assign_removes_at_most_match.1 dB tB "Cannot find a suitable offer for task t"
    (Assign dB tB).2 (by with_unfolding_all rfl)

/-- C2: with non-negative inputs, every operation preserves `0 ≤ Cpu` and
`0 ≤ Mem` for every entry remaining in the pool: `AddOffers` projects
non-negative batches to non-negative entries, `Assign` preserves pool
non-negativity (a subtraction that would go negative is never performed, as
the allocation clauses state), and `AddFilter`/`ClearFilters` never touch the
pool at all (`Offers` is a pure query in this model). -/
theorem C2_nonneg_invariant :
    (∀ (d : DefaultResourceManager) (batch : List Offer),
        (∀ o ∈ batch, ∀ r ∈ o.resources, 0 ≤ r.scalar.getD 0) →
        ∀ e ∈ (AddOffers d batch).offers, 0 ≤ e.Cpu ∧ 0 ≤ e.Mem) ∧
    (∀ (d : DefaultResourceManager) (t : TaskInfo),
        (∀ e ∈ d.offers, 0 ≤ e.Cpu ∧ 0 ≤ e.Mem) →
        ∀ e' ∈ (Assign d t).2.offers, 0 ≤ e'.Cpu ∧ 0 ≤ e'.Mem) ∧
    (∀ (d : DefaultResourceManager) (t : TaskInfo) (fs : List Filter)
        (r : DefaultResourceManager × Option String),
        AddFilter d t fs = some r → r.1.offers = d.offers) ∧
    (∀ (d : DefaultResourceManager) (t : TaskInfo), (ClearFilters d t).offers = d.offers) ∧
    (∀ (c : ℚ) (e : MesosOfferResources), 0 ≤ e.Cpu → 0 ≤ (allocateCpuResource c e).1.Cpu) ∧
    (∀ (m : ℚ) (e : MesosOfferResources), 0 ≤ e.Mem → 0 ≤ (allocateMemResource m e).1.Mem) := by
  refine ⟨fun d batch hb e he => ?_, fun d t hp e' he' => ?_, fun d t fs r h => AddFilter_offers fs d t r h,
    fun d t => rfl, allocateCpuResource_nonneg, allocateMemResource_nonneg⟩
  · rw [AddOffers_offers] at he
    rcases List.mem_map.mp he with ⟨o, ho, rfl⟩
    exact projectResources_nonneg o.resources _ (fun r hr => hb o ho r hr) le_rfl le_rfl
  · rcases hA : Assign d t with ⟨res, d'⟩
    rw [hA] at he'
    cases res with
    | error msg => exact assignScan_nonneg d t _ _ _ _ _ (Assign_error_offers d t msg d' hA) hp e' he'
    | ok o => exact assignScan_nonneg d t _ _ _ _ _ (Assign_ok_offers d t o d' hA) hp e' he'

/-- C2 witness: the `AddOffers` clause applied to the concrete batch holding
`offerB` (`cpu=4, mem=10`). -/
theorem C2_witness : 0 ≤ (projectOffer offerB).Cpu ∧ 0 ≤ (projectOffer offerB).Mem :=
  C2_nonneg_invariant.1 NewDefaultResourceManager [offerB] (by decide)
    (projectOffer offerB) (by with_unfolding_all decide)

/-- C6: under the default retention policy (no strategy registered for the
task), every successful `Assign` removes the matched offer from the pool
immediately, regardless of residual capacity — the pool always shrinks by
exactly one; concretely, with one offer `cpu=4, mem=4096` and two tasks each
demanding `cpus=1`, the first `Assign` succeeds and empties the pool and the
second fails with the not-found error naming the task. -/
theorem C6_nonmux_single_use :
    (∀ (d : DefaultResourceManager) (t : TaskInfo) (o : Offer)
        (d' : DefaultResourceManager),
        d.strategy t.name = none → Assign d t = (Except.ok o, d') →
        d'.offers.length + 1 = d.offers.length) ∧
    (Assign dA tA1).1 = Except.ok offerA ∧
    (Assign dA tA1).2.offers = [] ∧
    (Assign (Assign dA tA1).2 tA2).1
      = Except.error "Cannot find a suitable offer for task t2" := by
  refine ⟨fun d t o d' hstrat h => ?_, ?_, ?_, ?_⟩
  · rcases assignScan_some_spec d t _ _ _ _ _ (Assign_ok_offers d t o d' h) with
      ⟨j, e, mid, hlen, hj, _, _, hpool⟩
    have hne : mid.set j e ≠ [] := by
      have h0 : 0 < (mid.set j e).length := by rw [List.length_set]; omega
      exact List.length_pos.mp h0
    have hls : (mid.set j e).length = d.offers.length := by rw [List.length_set]; exact hlen
    rw [hstrat] at hpool
    have hcond : ¬ strToLower ((none : Option String).getD "non-mux") = strToLower "mux" := by
      decide
    rw [if_neg hcond] at hpool
    rw [hpool, popOffer_length (mid.set j e) j hne, hls]
  all_goals with_unfolding_all rfl

/-- C6 witness: the removal clause applied to the concrete first `Assign` of
the scenario. -/
theorem C6_witness : (Assign dA tA1).2.offers.length + 1 = dA.offers.length :=
  C6_nonmux_single_use.1 dA tA1 offerA (Assign dA tA1).2
    (by with_unfolding_all rfl) (by with_unfolding_all rfl)

/-- C7: under a registered `mux` strategy, a successful `Assign` keeps the
matched (debited, accepted) entry in the pool whenever both residual scalars
are non-zero — the pool's length is unchanged and the entry remains
consumable — and removes it exactly when residual `Mem` or `Cpu` is `0`;
concretely, from `cpu=4, mem=10`, a `cpus=1` task leaves the entry at
`Cpu=3` and a second task's `Assign` further consumes it to `Cpu=1`. -/
theorem C7_mux_retention :
    (∀ (d : DefaultResourceManager) (t : TaskInfo) (o : Offer)
        (d' : DefaultResourceManager) (str : String),
        d.strategy t.name = some str → strToLower str = "mux" →
        Assign d t = (Except.ok o, d') →
        ∃ e : MesosOfferResources, e.Offer = o ∧ e.Accepted = true ∧
          ((¬ (e.Mem = 0 ∨ e.Cpu = 0)) →
            e ∈ d'.offers ∧ d'.offers.length = d.offers.length) ∧
          ((e.Mem = 0 ∨ e.Cpu = 0) → d'.offers.length + 1 = d.offers.length)) ∧
    (Assign dC tC1).1 = Except.ok offerC ∧
    (Assign dC tC1).2.offers
      = [{ Offer := offerC, Cpu := 3, Mem := 10, Disk := none, Accepted := true }] ∧
    (Assign (Assign dC tC1).2 tC2).1 = Except.ok offerC ∧
    (Assign (Assign dC tC1).2 tC2).2.offers
      = [{ Offer := offerC, Cpu := 1, Mem := 10, Disk := none, Accepted := true }] := by
  refine ⟨fun d t o d' str hstrat hmux h => ?_, ?_, ?_, ?_, ?_⟩
  · rcases assignScan_some_spec d t _ _ _ _ _ (Assign_ok_offers d t o d' h) with
      ⟨j, e, mid, hlen, hj, ho, hacc, hpool⟩
    rw [hstrat] at hpool
    have hgl : strToLower ((some str).getD "non-mux") = strToLower "mux" := by
      rw [Option.getD_some, hmux]
      decide
    rw [if_pos hgl] at hpool
    refine ⟨e, ho, hacc, fun hnz => ?_, fun hz => ?_⟩
    · rw [if_neg hnz] at hpool
      constructor
      · rw [hpool]
        have hj' : j < (mid.set j e).length := by rw [List.length_set]; exact hj
        have hm := List.getElem_mem hj'
        rwa [List.getElem_set_self (by simpa using hj)] at hm
      · rw [hpool, List.length_set, hlen]
    · rw [if_pos hz] at hpool
      have hne : mid.set j e ≠ [] := by
        have h0 : 0 < (mid.set j e).length := by rw [List.length_set]; omega
        exact List.length_pos.mp h0
      rw [hpool, popOffer_length (mid.set j e) j hne, List.length_set, hlen]
  all_goals with_unfolding_all rfl

/-- C7 witness: the retention clause applied to the concrete mux scenario's
first `Assign`. -/
theorem C7_witness :
    ∃ e : MesosOfferResources, e.Offer = offerC ∧ e.Accepted = true ∧
      ((¬ (e.Mem = 0 ∨ e.Cpu = 0)) →
        e ∈ (Assign dC tC1).2.offers ∧
        (Assign dC tC1).2.offers.length = dC.offers.length) ∧
      ((e.Mem = 0 ∨ e.Cpu = 0) →
        (Assign dC tC1).2.offers.length + 1 = dC.offers.length) :=
  C7_mux_retention.1 dC tC1 offerC (Assign dC tC1).2 "mux"
    (by with_unfolding_all rfl) (by decide) (by with_unfolding_all rfl)

/-- C5 (amended): a disk demand subtracts no capacity and never causes an
offer to be skipped — erasing all `"disk"` demands changes neither the
success flag nor the scalar outcome of the resource loop — but the claim's
direction of the copy is wrong: when the task's resource carries a disk
descriptor it is that descriptor which overwrites the pool entry's `Disk`
field (nothing is copied from the offer onto the match; see the
counterexample), and a task resource without a descriptor copies nothing. -/
theorem C5_disk_no_accounting :
    (∀ (r : Resource) (e : MesosOfferResources),
        (allocateDiskResource r e).1.Cpu = e.Cpu ∧ (allocateDiskResource r e).1.Mem = e.Mem) ∧
    (∀ (r : Resource) (e : MesosOfferResources), r.disk = none →
        allocateDiskResource r e = (e, false)) ∧
    (∀ (r : Resource) (e : MesosOfferResources) (di : Resource_DiskInfo), r.disk = some di →
        allocateDiskResource r e = ({ e with Disk := r.disk }, true)) ∧
    (∀ (rs : List Resource) (e : MesosOfferResources),
        (consumeResources (rs.filter fun r => !(r.name == "disk")) e).2
            = (consumeResources rs e).2 ∧
        (consumeResources (rs.filter fun r => !(r.name == "disk")) e).1.Cpu
            = (consumeResources rs e).1.Cpu ∧
        (consumeResources (rs.filter fun r => !(r.name == "disk")) e).1.Mem
            = (consumeResources rs e).1.Mem) := by
  refine ⟨allocateDiskResource_scalars, fun r e hn => ?_, fun r e di hs => ?_,
    fun rs e => consumeResources_skip_disk rs e⟩
  · unfold allocateDiskResource
    rw [hn]
  · unfold allocateDiskResource
    rw [hs]

/-- C5 counterexample: the pool entry starts with disk descriptor tag 2; after
a successful `Assign` of a task demanding a disk with descriptor tag 1, the
entry holds the task's tag-1 descriptor — the offer's own descriptor was not
copied anywhere, contradicting "copying the offer's disk descriptor onto the
match". -/
theorem C5_counterexample :
    projectOffer offerE
      = { Offer := offerE, Cpu := 4, Mem := 10, Disk := some { tag := 2 }, Accepted := false } ∧
    (Assign dE tE).1 = Except.ok offerE ∧
    (Assign dE tE).2.offers
      = [{ Offer := offerE, Cpu := 3, Mem := 10, Disk := some { tag := 1 }, Accepted := true }] := by
  refine ⟨?_, ?_, ?_⟩ <;> with_unfolding_all rfl

/-- C5 witness: the descriptor-copy clause applied to the concrete task disk
resource and pool entry of the counterexample. -/
theorem C5_witness :
    allocateDiskResource (diskRes (some { tag := 1 })) (projectOffer offerE)
      = ({ projectOffer offerE with Disk := (diskRes (some { tag := 1 })).disk }, true) :=
  C5_disk_no_accounting.2.2.1 (diskRes (some { tag := 1 })) (projectOffer offerE)
    { tag := 1 } rfl

/-- C9: an `AddFilter` call whose list is a prefix of recognized entries
followed by an unrecognized kind returns the invalid-argument error naming
that kind; the state is exactly the state after registering the prefix alone
(entries before the invalid one applied, the invalid one and everything after
it not applied). -/
theorem C9_invalid_kind_partial_application :
    ∀ (d : DefaultResourceManager) (t : TaskInfo) (pre post : List Filter) (f : Filter),
      (∀ g ∈ pre, isValidKind g.type = true ∧ (strToLower g.type = "strategy" → g.value ≠ [])) →
      isValidKind f.type = false →
      ∃ d₁ : DefaultResourceManager,
        AddFilter d t pre = some (d₁, none) ∧
        AddFilter d t (pre ++ f :: post)
          = some (d₁, some ("Invalid filter passed in: " ++ f.type ++
              ". Allowed filters are SCALAR, TEXT, SET, RANGES, and STRATEGY.")) := by
  intro d t pre post f hv hbad
  rcases AddFilter_valid_ok pre d t hv with ⟨d₁, h1⟩
  refine ⟨d₁, h1, ?_⟩
  rw [AddFilter_append pre d t d₁ (f :: post) h1]
  exact AddFilter_invalid_head d₁ t f post hbad

/-- C9 witness: the theorem applied to a concrete call with one valid text
filter, then kind `"bogus"`, then one more entry. -/
theorem C9_witness :
    ∃ d₁ : DefaultResourceManager,
      AddFilter NewDefaultResourceManager tD [{ type := "text", value := ["gpu"] }]
          = some (d₁, none) ∧
      AddFilter NewDefaultResourceManager tD
          ([{ type := "text", value := ["gpu"] }] ++
            { type := "bogus", value := [] } :: [{ type := "scalar", value := ["1"] }])
        = some (d₁, some ("Invalid filter passed in: " ++ "bogus" ++
            ". Allowed filters are SCALAR, TEXT, SET, RANGES, and STRATEGY.")) :=
  C9_invalid_kind_partial_application NewDefaultResourceManager tD
    [{ type := "text", value := ["gpu"] }] [{ type := "scalar", value := ["1"] }]
    { type := "bogus", value := [] } (by decide) (by decide)

/-- C10 (amended): `AddFilter` panics (modelled by `none`) on a strategy-kind
filter with an empty value list provided every entry before it has a
recognized kind; the claim's universal form is false because an unrecognized
kind earlier in the list returns the invalid-kind error before the strategy
entry is reached (see the counterexample). -/
theorem C10_strategy_empty_value_panics :
    ∀ (d : DefaultResourceManager) (t : TaskInfo) (pre post : List Filter) (f : Filter),
      (∀ g ∈ pre, isValidKind g.type = true) →
      strToLower f.type = "strategy" → f.value = [] →
      AddFilter d t (pre ++ f :: post) = none :=
  fun d t pre post f hv hs hval => AddFilter_strategy_empty pre d t f post hv hs hval

/-- C10 counterexample: a call containing a strategy filter with empty values
preceded by a `"bogus"`-kind entry returns normally with the invalid-kind
error — it does not panic, contradicting the claim's universal form. -/
theorem C10_counterexample :
    (AddFilter NewDefaultResourceManager tD
        [{ type := "bogus", value := [] }, { type := "strategy", value := [] }]).map
      (fun r => r.2)
      = some (some "Invalid filter passed in: bogus. Allowed filters are SCALAR, TEXT, SET, RANGES, and STRATEGY.") := by
  with_unfolding_all rfl

/-- C10 witness: the amended theorem applied to a call consisting of only the
strategy filter with an empty value list. -/
theorem C10_witness :
    AddFilter NewDefaultResourceManager tD [{ type := "strategy", value := [] }] = none :=
  C10_strategy_empty_value_panics NewDefaultResourceManager tD [] []
    { type := "strategy", value := [] } (by simp) (by decide) rfl

end Mesos
